import Mathlib

/-!
Verification of the core of the `mercurial` crowd-simulation repository.

The Python source is shallowly embedded over exact rationals (`ℚ`): numpy
float arrays become pairs/lists of rationals, fallible operations (Python
`raise` / failed `assert`) become `Except String`, and the handful of
helpers that live in the repository's `functions.py` / `math_objects`
modules (absent from the sources) are modelled from the specification and
marked as such in their doc comments.
-/

namespace Mercurial

/-- A 2D coordinate (numpy array of length 2) over exact rationals. -/
abbrev Vec2 := ℚ × ℚ

/-- `Obstacle` from `scene.py`: an axis-aligned rectangle with a begin
point, a size, a permeability flag and an interior flag (`in_interior`). -/
structure Obstacle where
  begin_ : Vec2
  size : Vec2
  permeable : Bool
  inInterior : Bool
deriving DecidableEq

namespace Obstacle

/-- `self.end = self.begin + self.size` from `Obstacle.__init__`. -/
def end_ (o : Obstacle) : Vec2 := (o.begin_.1 + o.size.1, o.begin_.2 + o.size.2)

/-- `corner_list` from `Obstacle.__init__`:
`[Point(self.begin + Size([x, y]) * self.size) for x in range(2) for y in range(2)]`. -/
def cornerList (o : Obstacle) : List Vec2 :=
  [ (o.begin_.1, o.begin_.2),
    (o.begin_.1, o.begin_.2 + o.size.2),
    (o.begin_.1 + o.size.1, o.begin_.2),
    (o.begin_.1 + o.size.1, o.begin_.2 + o.size.2) ]

/-- `margin_list` from `Obstacle.__init__` in the top-level `scene.py`:
`[Point(np.sign([x - 0.5, y - 0.5])) * 3 for x in range(2) for y in range(2)]`
(the `Exit` subclass overrides this with zeros, but exits are never
interior non-permeable obstacles, which is the only case the planner uses). -/
def marginList : List Vec2 :=
  [ (-3, -3), (-3, 3), (3, -3), (3, 3) ]

/-- `Obstacle.__contains__`: the closed-rectangle membership test
`all([self.begin[dim] <= coord[dim] <= self.begin[dim] + self.size[dim] for dim in range(2)])`. -/
def contains (o : Obstacle) (p : Vec2) : Bool :=
  decide (o.begin_.1 ≤ p.1) && decide (p.1 ≤ o.begin_.1 + o.size.1) &&
  decide (o.begin_.2 ≤ p.2) && decide (p.2 ≤ o.begin_.2 + o.size.2)

end Obstacle

/-- One axis of `Planner.get_goal` from `planner.py`: keep the coordinate if
it lies in the interval `[b, e]` (the `Interval.__contains__` test), clamp to
`b` if below, to `e` otherwise. -/
def getGoalDim (x b e : ℚ) : ℚ :=
  if b ≤ x ∧ x ≤ e then x
  else if x < b then b
  else e

/-- `Planner.get_goal(position, obstacle)` from `planner.py`: per-axis
projection of a position onto the obstacle's closed rectangle. -/
def getGoal (pos : Vec2) (o : Obstacle) : Vec2 :=
  (getGoalDim pos.1 o.begin_.1 (o.end_).1, getGoalDim pos.2 o.begin_.2 (o.end_).2)

/-- The within-interval case of one `get_goal` axis. -/
theorem getGoalDim_of_mem (x b e : ℚ) (h1 : b ≤ x) (h2 : x ≤ e) :
    getGoalDim x b e = x := by
  simp [getGoalDim, h1, h2]

/-- The below-interval case of one `get_goal` axis. -/
theorem getGoalDim_of_lt (x b e : ℚ) (h : x < b) :
    getGoalDim x b e = b := by
  rw [getGoalDim, if_neg (fun hc => absurd hc.1 (not_le.mpr h)), if_pos h]

/-- The above-interval case of one `get_goal` axis. -/
theorem getGoalDim_of_gt (x b e : ℚ) (hbe : b ≤ e) (h : e < x) :
    getGoalDim x b e = e := by
  rw [getGoalDim, if_neg (fun hc => absurd hc.2 (not_le.mpr h)),
    if_neg (not_lt.mpr (le_trans hbe (le_of_lt h)))]

/-- C2: each coordinate of the projected goal equals the input coordinate
when it lies within the rectangle's interval on that axis, the interval's
begin when below it, and the interval's end when above it. Obstacle sizes
are non-negative (the `Size` constructor rejects negative sizes). -/
theorem getGoal_clamps_per_axis (pos : Vec2) (o : Obstacle)
    (hx : 0 ≤ o.size.1) (hy : 0 ≤ o.size.2) :
    ((o.begin_.1 ≤ pos.1 ∧ pos.1 ≤ o.end_.1) → (getGoal pos o).1 = pos.1) ∧
    (pos.1 < o.begin_.1 → (getGoal pos o).1 = o.begin_.1) ∧
    (o.end_.1 < pos.1 → (getGoal pos o).1 = o.end_.1) ∧
    ((o.begin_.2 ≤ pos.2 ∧ pos.2 ≤ o.end_.2) → (getGoal pos o).2 = pos.2) ∧
    (pos.2 < o.begin_.2 → (getGoal pos o).2 = o.begin_.2) ∧
    (o.end_.2 < pos.2 → (getGoal pos o).2 = o.end_.2) := by
  have hbe1 : o.begin_.1 ≤ o.end_.1 := by simp [Obstacle.end_]; linarith
  have hbe2 : o.begin_.2 ≤ o.end_.2 := by simp [Obstacle.end_]; linarith
  exact ⟨fun h => getGoalDim_of_mem _ _ _ h.1 h.2,
    fun h => getGoalDim_of_lt _ _ _ h,
    fun h => getGoalDim_of_gt _ _ _ hbe1 h,
    fun h => getGoalDim_of_mem _ _ _ h.1 h.2,
    fun h => getGoalDim_of_lt _ _ _ h,
    fun h => getGoalDim_of_gt _ _ _ hbe2 h⟩

/-- Example rectangle `[10,20] × [5,15]` from the specification. -/
def rectEx : Obstacle := { begin_ := (10, 5), size := (10, 10), permeable := false, inInterior := true }

/-- Witness for C2: the spec's own example, rectangle `[10,20]×[5,15]` and
point `(25,2)` yield goal `(20,5)`. -/
theorem getGoal_clamps_per_axis_witness :
    (0:ℚ) ≤ rectEx.size.1 ∧ (0:ℚ) ≤ rectEx.size.2 ∧ getGoal (25, 2) rectEx = (20, 5) := by
  have h := getGoal_clamps_per_axis (25, 2) rectEx (by norm_num [rectEx]) (by norm_num [rectEx])
  have h1 := h.2.2.1 (by norm_num [rectEx, Obstacle.end_])
  have h2 := h.2.2.2.2.1 (by norm_num [rectEx])
  refine ⟨by norm_num [rectEx], by norm_num [rectEx], ?_⟩
  have : getGoal (25, 2) rectEx = ((getGoal (25, 2) rectEx).1, (getGoal (25, 2) rectEx).2) := rfl
  rw [this, h1, h2]
  norm_num [rectEx, Obstacle.end_]

/-- C9: the projected goal always satisfies the obstacle's own closed
membership test (`Obstacle.__contains__`), given non-negative sizes. -/
theorem getGoal_in_rectangle (pos : Vec2) (o : Obstacle)
    (hx : 0 ≤ o.size.1) (hy : 0 ≤ o.size.2) :
    o.contains (getGoal pos o) = true := by
  have key : ∀ x b e : ℚ, b ≤ e → b ≤ getGoalDim x b e ∧ getGoalDim x b e ≤ e := by
    intro x b e hbe
    unfold getGoalDim
    split_ifs with h1 h2
    · exact ⟨h1.1, h1.2⟩
    · exact ⟨le_refl b, hbe⟩
    · exact ⟨hbe, le_refl e⟩
  have hbe1 : o.begin_.1 ≤ o.begin_.1 + o.size.1 := by linarith
  have hbe2 : o.begin_.2 ≤ o.begin_.2 + o.size.2 := by linarith
  have k1 := key pos.1 o.begin_.1 (o.begin_.1 + o.size.1) hbe1
  have k2 := key pos.2 o.begin_.2 (o.begin_.2 + o.size.2) hbe2
  simp only [Obstacle.contains, getGoal, Obstacle.end_, Bool.and_eq_true, decide_eq_true_eq]
  exact ⟨⟨⟨k1.1, k1.2⟩, k2.1⟩, k2.2⟩

/-- Witness for C9: the projected goal of `(25,2)` lies inside `[10,20]×[5,15]`. -/
theorem getGoal_in_rectangle_witness :
    (0:ℚ) ≤ rectEx.size.1 ∧ (0:ℚ) ≤ rectEx.size.2 ∧
    rectEx.contains (getGoal (25, 2) rectEx) = true :=
  ⟨by norm_num [rectEx], by norm_num [rectEx],
   getGoal_in_rectangle (25, 2) rectEx (by norm_num [rectEx]) (by norm_num [rectEx])⟩

/-- `np.sign` on a rational, as an integer in `{-1, 0, 1}`. -/
def sign (x : ℚ) : ℤ :=
  if 0 < x then 1 else if x < 0 then -1 else 0

/-- Modelled from the spec: `get_hyperplane_function` lives in the
repository's `functions.py`, which is absent from the sources. The spec
describes it as the implicit line function for the infinite line through
the segment's endpoints, the standard two-point line equation returning a
signed value per side. -/
def hyperplaneF (p0 p1 c : Vec2) : ℚ :=
  (p1.2 - p0.2) * (c.1 - p0.1) - (p1.1 - p0.1) * (c.2 - p0.2)

/-- Modelled from the spec: `rectangles_intersect` lives in the
repository's `functions.py`, which is absent from the sources. The spec
describes it as the axis-aligned bounding-box overlap test, where strict
mode (`open_sets = True`) excludes boundary-touching overlaps. -/
def rectanglesIntersect (r0 r1 o0 o1 : Vec2) (openSets : Bool) : Bool :=
  if openSets then
    decide (r0.1 < o1.1) && decide (o0.1 < r1.1) &&
    decide (r0.2 < o1.2) && decide (o0.2 < r1.2)
  else
    decide (r0.1 ≤ o1.1) && decide (o0.1 ≤ r1.1) &&
    decide (r0.2 ≤ o1.2) && decide (o0.2 ≤ r1.2)

/-- `LineSegment` from `geometry.py`: an ordered pair of points. -/
structure Seg where
  begin_ : Vec2
  end_ : Vec2
deriving DecidableEq

/-- The narrow phase of `crosses_obstacle`: the sum of the signs of the
hyperplane function evaluated at the obstacle's four corners. -/
def signSumAtCorners (s : Seg) (o : Obstacle) : ℤ :=
  (o.cornerList.map (fun c => sign (hyperplaneF s.begin_ s.end_ c))).sum

/-- `LineSegment.crosses_obstacle(obstacle, open_sets)` from `geometry.py`:
broad phase on the segment's axis-aligned bounding box against the
obstacle's rectangle, then the narrow-phase sign test of the hyperplane
function at the obstacle's four corners (sum of signs `±4` means all
corners lie strictly on one side, so no crossing). -/
def crossesObstacle (s : Seg) (o : Obstacle) (openSets : Bool) : Bool :=
  if rectanglesIntersect (min s.begin_.1 s.end_.1, min s.begin_.2 s.end_.2)
      (max s.begin_.1 s.end_.1, max s.begin_.2 s.end_.2) o.begin_ o.end_ openSets then
    if signSumAtCorners s o = 4 ∨ signSumAtCorners s o = -4 then false else true
  else false

/-- Reversing the segment negates the two-point line function. -/
theorem hyperplaneF_swap (p q c : Vec2) : hyperplaneF q p c = - hyperplaneF p q c := by
  unfold hyperplaneF; ring

/-- `np.sign` is odd. -/
theorem sign_neg (x : ℚ) : sign (-x) = - sign x := by
  unfold sign
  rcases lt_trichotomy x 0 with h | h | h
  · rw [if_pos (show (0:ℚ) < -x by linarith), if_neg (show ¬ (0:ℚ) < x by linarith), if_pos h]
    try norm_num
  · subst h
    norm_num
  · rw [if_neg (show ¬ (0:ℚ) < -x by linarith), if_pos (show -x < (0:ℚ) by linarith), if_pos h]
    try norm_num

/-- Reversing the segment negates the corner sign sum. -/
theorem signSumAtCorners_swap (p q : Vec2) (o : Obstacle) :
    signSumAtCorners ⟨q, p⟩ o = - signSumAtCorners ⟨p, q⟩ o := by
  simp only [signSumAtCorners, Obstacle.cornerList, List.map_cons, List.map_nil,
    List.sum_cons, List.sum_nil]
  rw [hyperplaneF_swap q p, hyperplaneF_swap q p, hyperplaneF_swap q p, hyperplaneF_swap q p]
  simp only [sign_neg]
  ring

/-- C5: the crossing predicate is direction-independent, in both the
boundary-inclusive (`open_sets = False`) and open-set (`open_sets = True`)
modes. -/
theorem crossesObstacle_symm (p q : Vec2) (o : Obstacle) (b : Bool) :
    crossesObstacle ⟨q, p⟩ o b = crossesObstacle ⟨p, q⟩ o b := by
  show (if rectanglesIntersect (min q.1 p.1, min q.2 p.2) (max q.1 p.1, max q.2 p.2)
      o.begin_ o.end_ b then
    if signSumAtCorners ⟨q, p⟩ o = 4 ∨ signSumAtCorners ⟨q, p⟩ o = -4 then false else true
  else false) = _
  rw [min_comm q.1 p.1, min_comm q.2 p.2, max_comm q.1 p.1, max_comm q.2 p.2,
    signSumAtCorners_swap]
  show _ = (if rectanglesIntersect (min p.1 q.1, min p.2 q.2) (max p.1 q.1, max p.2 q.2)
      o.begin_ o.end_ b then
    if signSumAtCorners ⟨p, q⟩ o = 4 ∨ signSumAtCorners ⟨p, q⟩ o = -4 then false else true
  else false)
  apply if_congr Iff.rfl _ rfl
  apply if_congr _ rfl rfl
  omega

/-- The unit square obstacle used in counterexamples. -/
def unitSq : Obstacle := { begin_ := (0, 0), size := (1, 1), permeable := false, inInterior := true }

/-- `LineSegment.get_point(value)` from `geometry.py`: the point at
parameter `t` along the segment. -/
def segPoint (s : Seg) (t : ℚ) : Vec2 :=
  (s.begin_.1 + t * (s.end_.1 - s.begin_.1), s.begin_.2 + t * (s.end_.2 - s.begin_.2))

/-- Closed-rectangle membership of a point, the set the spec's
`Obstacle.__contains__` decides. -/
def inRect (o : Obstacle) (p : Vec2) : Prop :=
  o.begin_.1 ≤ p.1 ∧ p.1 ≤ (o.end_).1 ∧ o.begin_.2 ≤ p.2 ∧ p.2 ≤ (o.end_).2

/-- A point of the closed rectangle lying on its topological boundary. -/
def onRectBoundary (o : Obstacle) (p : Vec2) : Prop :=
  inRect o p ∧ (p.1 = o.begin_.1 ∨ p.1 = (o.end_).1 ∨ p.2 = o.begin_.2 ∨ p.2 = (o.end_).2)

/-- The segment meets the obstacle rectangle only in boundary points. -/
def touchesOnlyBoundary (s : Seg) (o : Obstacle) : Prop :=
  ∀ t : ℚ, 0 ≤ t → t ≤ 1 → inRect o (segPoint s t) → onRectBoundary o (segPoint s t)

/-- Counterexample to C6: the segment from `(1,-1)` to `(-1,1)` meets the
unit square only in its corner `(0,0)` — a boundary point — yet
`crosses_obstacle` with `open_sets = True` reports a crossing. -/
theorem crossesObstacle_corner_touch_reported :
    touchesOnlyBoundary ⟨(1, -1), (-1, 1)⟩ unitSq ∧
    crossesObstacle ⟨(1, -1), (-1, 1)⟩ unitSq true = true := by
  constructor
  · intro t ht0 ht1 hin
    refine ⟨hin, Or.inl ?_⟩
    obtain ⟨h1, h2, h3, h4⟩ := hin
    simp only [segPoint, unitSq, Obstacle.end_] at h1 h3 ⊢
    norm_num at h1 h3 ⊢
    linarith
  · norm_num [crossesObstacle, rectanglesIntersect, signSumAtCorners, hyperplaneF, sign,
      Obstacle.cornerList, unitSq, Obstacle.end_]

/-- C6 amended: in open-set mode, a segment lying on the supporting line of
one of the obstacle's four edges is never reported as crossing (its
bounding box does not strictly overlap the obstacle, so the broad phase
rejects it). -/
theorem crossesObstacle_open_edge_line (s : Seg) (o : Obstacle)
    (h : (s.begin_.2 = o.begin_.2 ∧ s.end_.2 = o.begin_.2) ∨
         (s.begin_.2 = (o.end_).2 ∧ s.end_.2 = (o.end_).2) ∨
         (s.begin_.1 = o.begin_.1 ∧ s.end_.1 = o.begin_.1) ∨
         (s.begin_.1 = (o.end_).1 ∧ s.end_.1 = (o.end_).1)) :
    crossesObstacle s o true = false := by
  unfold crossesObstacle rectanglesIntersect
  rcases h with ⟨h1, h2⟩ | ⟨h1, h2⟩ | ⟨h1, h2⟩ | ⟨h1, h2⟩ <;>
    simp [h1, h2, lt_irrefl]

/-- Witness for the amended C6: a long segment running along the bottom
edge line of the unit square is not reported as crossing it. -/
theorem crossesObstacle_open_edge_line_witness :
    ((Seg.mk (-5, 0) (7, 0)).begin_.2 = unitSq.begin_.2 ∧
     (Seg.mk (-5, 0) (7, 0)).end_.2 = unitSq.begin_.2) ∧
    crossesObstacle ⟨(-5, 0), (7, 0)⟩ unitSq true = false :=
  ⟨by constructor <;> rfl,
   crossesObstacle_open_edge_line ⟨(-5, 0), (7, 0)⟩ unitSq (Or.inl ⟨rfl, rfl⟩)⟩

/-- The inflated corner points `[corner + margin for corner, margin in
zip(obstacle.corner_list, obstacle.margin_list)]` from
`GraphPlanner._create_obstacle_graph`. -/
def inflatedCorners (o : Obstacle) : List Vec2 :=
  (o.cornerList.zip Obstacle.marginList).map (fun cm => (cm.1.1 + cm.2.1, cm.1.2 + cm.2.2))

/-- The graph nodes created by `GraphPlanner._create_obstacle_graph` for the
interior, non-permeable obstacles (the Exit node aside): an inflated corner
is added when `all(point.array < self.scene.size.array)`. -/
def obstacleGraphPoints (obstacles : List Obstacle) (size : Vec2) : List Vec2 :=
  obstacles.foldr
    (fun o acc =>
      if o.inInterior && !o.permeable then
        (inflatedCorners o).filter (fun p => decide (p.1 < size.1) && decide (p.2 < size.2)) ++ acc
      else acc) []

/-- `Scene.is_within_boundaries` from `scene.py`: strict membership in the
domain rectangle from the origin to the scene size. -/
def isWithinBoundariesB (size p : Vec2) : Bool :=
  decide (0 < p.1) && decide (p.1 < size.1) && decide (0 < p.2) && decide (p.2 < size.2)

/-- C3 amended: an inflated corner of an interior, non-permeable obstacle
becomes a graph node if and only if it is componentwise strictly below the
scene size; the origin side of the domain is not checked, so inflated
corners with non-positive coordinates are still added. -/
theorem obstacleGraphPoints_mem_iff (obstacles : List Obstacle) (size : Vec2) (p : Vec2) :
    p ∈ obstacleGraphPoints obstacles size ↔
    ∃ o ∈ obstacles, o.inInterior = true ∧ o.permeable = false ∧
      p ∈ inflatedCorners o ∧ p.1 < size.1 ∧ p.2 < size.2 := by
  induction obstacles with
  | nil => simp [obstacleGraphPoints]
  | cons o rest ih =>
    have hcons : obstacleGraphPoints (o :: rest) size =
        if o.inInterior && !o.permeable then
          (inflatedCorners o).filter
            (fun q => decide (q.1 < size.1) && decide (q.2 < size.2)) ++
            obstacleGraphPoints rest size
        else obstacleGraphPoints rest size := rfl
    rw [hcons]
    by_cases h : (o.inInterior && !o.permeable) = true
    · simp only [Bool.and_eq_true, Bool.not_eq_true'] at h
      rw [if_pos (by simp [h.1, h.2])]
      simp only [List.mem_append, List.mem_filter, Bool.and_eq_true, decide_eq_true_eq]
      constructor
      · rintro (⟨hm, hx, hy⟩ | hr)
        · exact ⟨o, List.mem_cons_self o rest, h.1, h.2, hm, hx, hy⟩
        · obtain ⟨o', ho', hrest⟩ := ih.mp hr
          exact ⟨o', List.mem_cons_of_mem _ ho', hrest⟩
      · rintro ⟨o', ho', hint, hperm, hm, hx, hy⟩
        rcases List.mem_cons.mp ho' with he | ho''
        · subst he
          exact Or.inl ⟨hm, hx, hy⟩
        · exact Or.inr (ih.mpr ⟨o', ho'', hint, hperm, hm, hx, hy⟩)
    · rw [if_neg h, ih]
      constructor
      · rintro ⟨o', ho', hrest⟩
        exact ⟨o', List.mem_cons_of_mem _ ho', hrest⟩
      · rintro ⟨o', ho', hint, hperm, hrest⟩
        rcases List.mem_cons.mp ho' with he | ho''
        · subst he
          exact absurd (by rw [hint, hperm]; rfl) h
        · exact ⟨o', ho'', hint, hperm, hrest⟩

/-- An interior non-permeable obstacle near the origin, whose lower-left
inflated corner leaves the domain. -/
def nearOriginSq : Obstacle := { begin_ := (1, 1), size := (1, 1), permeable := false, inInterior := true }

/-- Counterexample to C3: in a `20 × 20` scene, the inflated corner
`(-2,-2)` of the obstacle `[1,2]×[1,2]` is created as a graph node even
though it lies outside the domain (the code checks only the upper bound
`point < size`, never the origin side). -/
theorem obstacleGraphPoints_node_outside_domain :
    ((-2 : ℚ), (-2 : ℚ)) ∈ obstacleGraphPoints [nearOriginSq] (20, 20) ∧
    isWithinBoundariesB (20, 20) (-2, -2) = false := by
  constructor
  · norm_num [obstacleGraphPoints, inflatedCorners, nearOriginSq, Obstacle.cornerList,
      Obstacle.marginList, List.filter]
  · norm_num [isWithinBoundariesB]

/-- The absolute tolerance of `np.allclose`. -/
def atol : ℚ := 1 / 10 ^ 8

/-- The relative tolerance of `np.allclose`. -/
def rtol : ℚ := 1 / 10 ^ 5

/-- `np.allclose(a, b)` on two 2D points: componentwise
`|a - b| <= atol + rtol * |b|`. -/
def allclose (a b : Vec2) : Bool :=
  decide (|a.1 - b.1| ≤ atol + rtol * |b.1|) && decide (|a.2 - b.2| ≤ atol + rtol * |b.2|)

/-- `Path._check_connectivity(ls1, ls2)` from `geometry.py`:
`np.allclose(ls1.end, ls2.begin)` (an `AssertionError` is raised when it
fails). -/
def checkConnectivity (l1 l2 : Seg) : Bool := allclose l1.end_ l2.begin_

/-- The sequence of adjacent-pair checks run by `Path.__init__`. -/
def contiguousB : List Seg → Bool
  | [] => true
  | [_] => true
  | a :: b :: rest => checkConnectivity a b && contiguousB (b :: rest)

/-- `Path.__init__(line_segment_list)` from `geometry.py`: checks every
adjacent pair of the list and raises when one fails. -/
def mkPath (l : List Seg) : Except String (List Seg) :=
  if contiguousB l then .ok l else .error "segments do not connect"

/-- `Path.append(other)` from `geometry.py` for a `LineSegment` argument:
when the path is non-empty, the new segment is checked against the current
last segment. -/
def pathAppend (p : List Seg) (s : Seg) : Except String (List Seg) :=
  match p.getLast? with
  | none => .ok [s]
  | some last => if checkConnectivity last s then .ok (p ++ [s]) else .error "segments do not connect"

/-- `Path.__iadd__(other)` from `geometry.py`: checks only the junction
between the current last segment and the first appended segment, then
concatenates (`other[0]` on an empty argument raises an `IndexError`). -/
def pathExtend (p other : List Seg) : Except String (List Seg) :=
  match p.getLast? with
  | none => .ok (p ++ other)
  | some last =>
    match other.head? with
    | none => .error "list index out of range"
    | some h => if checkConnectivity last h then .ok (p ++ other) else .error "segments do not connect"

/-- The `__init__` check succeeds exactly when every adjacent pair is
`allclose`-connected. -/
theorem contiguousB_iff_chain (l : List Seg) :
    contiguousB l = true ↔ List.Chain' (fun a b => checkConnectivity a b = true) l := by
  induction l with
  | nil => simp [contiguousB]
  | cons a rest ih =>
    cases rest with
    | nil => simp [contiguousB]
    | cons b rest' =>
      rw [List.chain'_cons]
      constructor
      · intro h
        have h' := h
        unfold contiguousB at h'
        rw [Bool.and_eq_true] at h'
        exact ⟨h'.1, ih.mp h'.2⟩
      · rintro ⟨h1, h2⟩
        show (checkConnectivity a b && contiguousB (b :: rest')) = true
        rw [Bool.and_eq_true]
        exact ⟨h1, ih.mpr h2⟩

/-- `isOk` of a boolean-guarded ok-or-error value is the guard itself. -/
theorem isOk_ite (c : Bool) (x : List Seg) (e : String) :
    (if c = true then (Except.ok x : Except String (List Seg)) else .error e).isOk = true ↔
    c = true := by
  cases c <;> simp [Except.isOk, Except.toBool]

/-- `np.allclose` accepts two identical points. -/
theorem allclose_refl (v : Vec2) : allclose v v = true := by
  unfold allclose atol rtol
  rw [Bool.and_eq_true, decide_eq_true_eq, decide_eq_true_eq]
  constructor <;> · rw [sub_self, abs_zero]; positivity

/-- C7 amended: path assembly checks contiguity only up to the `np.allclose`
tolerance, and only where the code calls `_check_connectivity`: constructing
a `Path` checks every adjacent pair, appending a `LineSegment` checks it
against the last segment, and merging (`+=`) checks only the junction with
the first merged segment; any failing check raises (`error`), a passing one
returns the assembled list. -/
theorem path_ops_check_allclose (l p other : List Seg) (s lastp h0 : Seg)
    (hp : p.getLast? = some lastp) (ho : other.head? = some h0) :
    ((mkPath l).isOk = true ↔ List.Chain' (fun a b => checkConnectivity a b = true) l) ∧
    ((pathAppend p s).isOk = true ↔ checkConnectivity lastp s = true) ∧
    ((pathExtend p other).isOk = true ↔ checkConnectivity lastp h0 = true) := by
  refine ⟨?_, ?_, ?_⟩
  · unfold mkPath
    rw [isOk_ite]
    exact contiguousB_iff_chain l
  · unfold pathAppend
    rw [hp]
    show (if checkConnectivity lastp s = true then (Except.ok (p ++ [s]) : Except String (List Seg))
      else .error "segments do not connect").isOk = true ↔ _
    rw [isOk_ite]
  · unfold pathExtend
    rw [hp, ho]
    show (if checkConnectivity lastp h0 = true then (Except.ok (p ++ other) : Except String (List Seg))
      else .error "segments do not connect").isOk = true ↔ _
    rw [isOk_ite]

/-- Witness for the amended C7: a two-segment contiguous path is accepted by
construction, append and merge. -/
theorem path_ops_check_allclose_witness :
    (mkPath [⟨(0, 0), (1, 0)⟩, ⟨(1, 0), (1, 1)⟩]).isOk = true ∧
    (pathAppend [⟨(0, 0), (1, 0)⟩] ⟨(1, 0), (1, 1)⟩).isOk = true ∧
    (pathExtend [⟨(0, 0), (1, 0)⟩] [⟨(1, 0), (1, 1)⟩]).isOk = true := by
  have h := path_ops_check_allclose [⟨(0, 0), (1, 0)⟩, ⟨(1, 0), (1, 1)⟩]
    [⟨(0, 0), (1, 0)⟩] [⟨(1, 0), (1, 1)⟩] ⟨(1, 0), (1, 1)⟩ ⟨(0, 0), (1, 0)⟩ ⟨(1, 0), (1, 1)⟩
    rfl rfl
  have hcc : checkConnectivity ⟨(0, 0), (1, 0)⟩ ⟨(1, 0), (1, 1)⟩ = true := by
    show allclose ((1 : ℚ), (0 : ℚ)) ((1 : ℚ), (0 : ℚ)) = true
    exact allclose_refl _
  exact ⟨h.1.mpr (List.chain'_pair.mpr hcc), h.2.1.mpr hcc, h.2.2.mpr hcc⟩

/-- Counterexample to C7: `Path([...])` accepts two segments whose junction
differs by `10⁻⁹` — within the `np.allclose` tolerance — so a constructed
`Path` value need not satisfy exact end-begin equality. -/
theorem path_exact_contiguity_fails :
    (mkPath [⟨(0, 0), (1, 0)⟩, ⟨(1, 1 / 10 ^ 9), (2, 0)⟩]).isOk = true ∧
    (Seg.mk (0, 0) (1, 0)).end_ ≠ (Seg.mk (1, 1 / 10 ^ 9) (2, 0)).begin_ := by
  have hcc : checkConnectivity ⟨(0, 0), (1, 0)⟩ ⟨(1, 1 / 10 ^ 9), (2, 0)⟩ = true := by
    show allclose ((1 : ℚ), (0 : ℚ)) ((1 : ℚ), 1 / 10 ^ 9) = true
    unfold allclose atol rtol
    rw [Bool.and_eq_true, decide_eq_true_eq, decide_eq_true_eq]
    constructor
    · rw [show |(1:ℚ) - 1| = 0 by norm_num]
      positivity
    · rw [show |(0:ℚ) - 1 / 10 ^ 9| = 1 / 10 ^ 9 by rw [abs_of_nonpos (by norm_num)]; norm_num,
        show |(1:ℚ) / 10 ^ 9| = 1 / 10 ^ 9 by rw [abs_of_nonneg (by norm_num)]]
      norm_num
  constructor
  · have hpath : contiguousB [⟨(0, 0), (1, 0)⟩, ⟨(1, 1 / 10 ^ 9), (2, 0)⟩] = true := by
      unfold contiguousB
      rw [hcc, Bool.true_and]
      rfl
    unfold mkPath
    rw [hpath, if_pos rfl]
    rfl
  · intro hcontra
    have h1 : ((1 : ℚ), (0 : ℚ)) = ((1 : ℚ), 1 / 10 ^ 9) := hcontra
    have h2 : (0 : ℚ) = 1 / 10 ^ 9 := congrArg Prod.snd h1
    norm_num at h2

/-- Squared Euclidean distance between two points. `np.linalg.norm` in
`Scene._minimum_distance_enforcement` is the (irrational) square root of
this; the embedding passes the norm `d` explicitly together with its
defining property `d ≥ 0 ∧ d² = sqDist`. -/
def sqDist (a b : Vec2) : ℚ := (a.1 - b.1) ^ 2 + (a.2 - b.2) ^ 2

/-- The scalar factor of one pair correction in
`Scene._minimum_distance_enforcement`:
`(min_distance / (distance + 0.001) - 1) / 2`. -/
def mdeFactor (minDist d : ℚ) : ℚ := (minDist / (d + 1 / 1000) - 1) / 2

/-- One entry of `mde_corrections`:
`(min_distance / (distances + 0.001) - 1) * differences / 2` with
`differences = a - b`. -/
def mdeCorrection (minDist d : ℚ) (a b : Vec2) : Vec2 :=
  (mdeFactor minDist d * (a.1 - b.1), mdeFactor minDist d * (a.2 - b.2))

/-- The batched application of the corrections of
`Scene._minimum_distance_enforcement` for a pair that is the only pair in
its cell: `ordered_corrections[a] += corr; ordered_corrections[b] -= corr;
position_array += ordered_corrections`. -/
def mdePairUpdate (minDist d : ℚ) (a b : Vec2) : Vec2 × Vec2 :=
  ((a.1 + (mdeCorrection minDist d a b).1, a.2 + (mdeCorrection minDist d a b).2),
   (b.1 - (mdeCorrection minDist d a b).1, b.2 - (mdeCorrection minDist d a b).2))

/-- C4 amended: for a pair that shares a cell alone, with separation
`0 < d < min_distance - 0.001`, the enforcement pass applies exactly
antisymmetric corrections of value `(min_distance/(d + 0.001) - 1)/2`
times the position difference, and the separation strictly increases.
(For `min_distance - 0.001 ≤ d < min_distance` the factor
`min_distance/(d + 0.001)` drops to `1` or below and the separation does
not increase; see the counterexample.) -/
theorem mde_pair_antisymmetric_and_separates (minDist d : ℚ) (a b : Vec2)
    (hd : d ^ 2 = sqDist a b) (hd0 : 0 < d) (hlt : d < minDist - 1 / 1000) :
    ((mdePairUpdate minDist d a b).1.1 - a.1, (mdePairUpdate minDist d a b).1.2 - a.2) =
      mdeCorrection minDist d a b ∧
    ((mdePairUpdate minDist d a b).2.1 - b.1, (mdePairUpdate minDist d a b).2.2 - b.2) =
      (-(mdeCorrection minDist d a b).1, -(mdeCorrection minDist d a b).2) ∧
    sqDist (mdePairUpdate minDist d a b).1 (mdePairUpdate minDist d a b).2 > sqDist a b := by
  refine ⟨by simp [mdePairUpdate], by simp [mdePairUpdate], ?_⟩
  have hden : 0 < d + 1 / 1000 := by linarith
  have hk : 1 < minDist / (d + 1 / 1000) := by
    rw [lt_div_iff₀ hden]
    linarith
  have hexpand : sqDist (mdePairUpdate minDist d a b).1 (mdePairUpdate minDist d a b).2 =
      (minDist / (d + 1 / 1000)) ^ 2 * sqDist a b := by
    simp only [mdePairUpdate, mdeCorrection, mdeFactor, sqDist]
    field_simp
    ring
  rw [hexpand, ← hd]
  have hdsq : 0 < d ^ 2 := by positivity
  have hk2 : 1 < (minDist / (d + 1 / 1000)) ^ 2 := by nlinarith [hk]
  have hprod := mul_pos (sub_pos.mpr hk2) hdsq
  nlinarith [hprod]

/-- Witness for the amended C4: the spec's own scenario — two agents `0.3`
apart with minimum distance `0.7` — yields antisymmetric corrections and a
strictly larger separation. -/
theorem mde_pair_antisymmetric_and_separates_witness :
    ((3 : ℚ) / 10) ^ 2 = sqDist (0, 0) (3 / 10, 0) ∧ (0 : ℚ) < 3 / 10 ∧
    (3 : ℚ) / 10 < 7 / 10 - 1 / 1000 ∧
    sqDist (mdePairUpdate (7 / 10) (3 / 10) (0, 0) (3 / 10, 0)).1
      (mdePairUpdate (7 / 10) (3 / 10) (0, 0) (3 / 10, 0)).2 > sqDist (0, 0) (3 / 10, 0) :=
  ⟨by norm_num [sqDist], by norm_num, by norm_num,
   (mde_pair_antisymmetric_and_separates (7 / 10) (3 / 10) (0, 0) (3 / 10, 0)
     (by norm_num [sqDist]) (by norm_num) (by norm_num)).2.2⟩

/-- Counterexample to C4: two agents `0.6995` apart — within `(0, 0.7)`, so
the claim asserts their separation must strictly increase — end up strictly
closer after the pass, because `0.7 / (0.6995 + 0.001) < 1`. -/
theorem mde_close_pair_separation_shrinks :
    (0 : ℚ) < 6995 / 10000 ∧ (6995 : ℚ) / 10000 < 7 / 10 ∧
    ((6995 : ℚ) / 10000) ^ 2 = sqDist (0, 0) (6995 / 10000, 0) ∧
    sqDist (mdePairUpdate (7 / 10) (6995 / 10000) (0, 0) (6995 / 10000, 0)).1
      (mdePairUpdate (7 / 10) (6995 / 10000) (0, 0) (6995 / 10000, 0)).2 <
      sqDist (0, 0) (6995 / 10000, 0) := by
  refine ⟨by norm_num, by norm_num, by norm_num [sqDist], ?_⟩
  norm_num [sqDist, mdePairUpdate, mdeCorrection, mdeFactor]

/-- The static scene data that `is_accessible` consults: the domain size
and the obstacle list. -/
structure SceneCfg where
  size : Vec2
  obstacles : List Obstacle

/-- `Scene.is_accessible(coord, at_start)` from `scene.py`: strictly within
the domain, and outside every obstacle unless the obstacle is permeable
(the `at_start` variant ignores permeability). -/
def isAccessible (sc : SceneCfg) (p : Vec2) (atStart : Bool) : Bool :=
  if isWithinBoundariesB sc.size p then
    if atStart then sc.obstacles.all (fun o => !(o.contains p))
    else sc.obstacles.all (fun o => !(o.contains p) || o.permeable)
  else false

/-- Modelled from the spec: `ft.norm` (in the absent `math_objects`
helpers) is the Euclidean norm, so the comparison
`ft.norm(dx, dy) < bound` of `Pedestrian.move_to_position` holds exactly
when `0 < bound` and `dx² + dy² < bound²`, which is how it is embedded
over `ℚ`. -/
def normLtB (v : Vec2) (bound : ℚ) : Bool :=
  decide (0 < bound) && decide (v.1 ^ 2 + v.2 ^ 2 < bound ^ 2)

/-- `Pedestrian.move_to_position(position, dt)` from
`src/objects/pedestrian.py`: if the target is within this tick's reachable
distance and accessible, the pedestrian's position is set to it; the
function then returns `False` unconditionally (its docstring promises
`True` when the position is attained). Result: new position and the
returned flag. -/
def moveToPosition (sc : SceneCfg) (pos target : Vec2) (maxSpeed dt : ℚ) : Vec2 × Bool :=
  if normLtB (target.1 - pos.1, target.2 - pos.2) (maxSpeed * dt) then
    if isAccessible sc target false then (target, false) else (pos, false)
  else (pos, false)

/-- The per-agent state that `Planner.collective_update` manipulates:
position, current target segment (`pedestrian.line`), remaining path,
velocity and alive flag. -/
structure AgentState where
  pos : Vec2
  line : Seg
  path : List Seg
  velocity : Vec2
  alive : Bool
deriving DecidableEq

/-- The per-agent body of `Planner.collective_update` from `planner.py`:
for a live agent, call `move_to_position` toward the current segment's
end; when it reports the checkpoint reached, either retire the agent
(empty path — `is_done` is modelled from the spec as the path having no
further segments, and `Scene.remove_pedestrian` clears the alive flag) or
pop the next segment and recompute the velocity toward its end (the
rescaling to maximum speed is abstracted by `rescale`, since it divides by
an irrational norm). Also returns the checkpoint flag the update observed. -/
def agentStep (sc : SceneCfg) (maxSpeed dt : ℚ) (rescale : Vec2 → Vec2)
    (a : AgentState) : AgentState × Bool :=
  if a.alive then
    match moveToPosition sc a.pos a.line.end_ maxSpeed dt with
    | (pos', checkpointReached) =>
      if checkpointReached then
        match a.path with
        | [] => ({ a with pos := pos', alive := false }, true)
        | seg :: rest =>
          ({ a with
              pos := pos'
              line := seg
              path := rest
              velocity := rescale (seg.end_.1 - pos'.1, seg.end_.2 - pos'.2) }, true)
      else ({ a with pos := pos' }, false)
  else (a, false)

/-- The empty 10×10 scene used to evaluate the C1 failing input. -/
def openScene : SceneCfg := { size := (10, 10), obstacles := [] }

/-- The C1 failing input: a live agent at `(1,1)` whose current segment
ends at `(1.01, 1)`, with a further segment left on its path. -/
def nearCheckpointAgent : AgentState :=
  { pos := (1, 1), line := ⟨(1, 1), (101 / 100, 1)⟩,
    path := [⟨(101 / 100, 1), (2, 1)⟩], velocity := (5, 0), alive := true }

/-- C1, evaluated at the failing input (max speed 5, Δt = 0.05, reachable
bound 0.25, endpoint accessible): `move_to_position` snaps the agent
exactly onto the segment endpoint, yet reports `False`, so
`collective_update` neither retires the agent nor pops the next segment —
the claimed checkpoint handling never runs. -/
theorem agentStep_never_reports_checkpoint :
    normLtB ((101 / 100 : ℚ) - 1, (1 : ℚ) - 1) (5 * (1 / 20)) = true ∧
    isAccessible openScene (101 / 100, 1) false = true ∧
    agentStep openScene 5 (1 / 20) id nearCheckpointAgent =
      ({ nearCheckpointAgent with pos := (101 / 100, 1) }, false) := by
  refine ⟨?_, ?_, ?_⟩
  · norm_num [normLtB]
  · norm_num [isAccessible, isWithinBoundariesB, openScene]
  · have hmove : moveToPosition openScene (1, 1) ((101 : ℚ) / 100, 1) 5 (1 / 20) =
        (((101 : ℚ) / 100, (1 : ℚ)), false) := by
      unfold moveToPosition
      rw [if_pos (by norm_num [normLtB]),
        if_pos (by norm_num [isAccessible, isWithinBoundariesB, openScene])]
    show agentStep openScene 5 (1 / 20) id nearCheckpointAgent = _
    unfold agentStep
    rw [if_pos (show nearCheckpointAgent.alive = true from rfl)]
    have hline : nearCheckpointAgent.line.end_ = ((101 : ℚ) / 100, (1 : ℚ)) := rfl
    have hpos : nearCheckpointAgent.pos = ((1 : ℚ), (1 : ℚ)) := rfl
    rw [hline, hpos, hmove]
    rfl

/-- A node of the visibility graph: an inflated corner / position point, or
the Exit obstacle node (`goal_obstacle` is itself a graph node in
`GraphPlanner`). -/
inductive GNode where
  | pt : Vec2 → GNode
  | exitNode : GNode
deriving DecidableEq

/-- Undirected adjacency in an `nx.Graph` given by an edge list. -/
def gAdj (edges : List (GNode × GNode)) (a b : GNode) : Prop :=
  (a, b) ∈ edges ∨ (b, a) ∈ edges

/-- A route exists between two nodes of the visibility graph. -/
def Reachable (edges : List (GNode × GNode)) (a b : GNode) : Prop :=
  Relation.ReflTransGen (gAdj edges) a b

/-- The segment list never ends, or its last segment ends exactly at `prev`. -/
def endsAt (acc : List Seg) (prev : Vec2) : Prop :=
  acc = [] ∨ ∃ last, acc.getLast? = some last ∧ last.end_ = prev

/-- The loop of `GraphPlanner.create_path` over `path[1:-1]`: successively
append `LineSegment([prev_point, point])` through the checked
`Path.append`, carrying the last point along. -/
def buildSegsFrom (prev : Vec2) (pts : List Vec2) (acc : List Seg) :
    Except String (List Seg × Vec2) :=
  match pts with
  | [] => .ok (acc, prev)
  | pt :: rest =>
    match pathAppend acc ⟨prev, pt⟩ with
    | .error e => .error e
    | .ok acc' => buildSegsFrom pt rest acc'

/-- `GraphPlanner.create_path` from `planner.py`. The external
`nx.astar_path` call is represented by its outcome: `none` models the
`NetworkXNoPath` exception, `some (start, mids)` models the returned node
sequence `[pedestrian.position] ++ mids ++ [goal_obstacle]`. On `none` the
code raises a `RuntimeError`; otherwise it builds the segment path and
re-targets the final hop through `get_goal`. -/
def createPath (goal : Obstacle) (searchResult : Option (Vec2 × List Vec2)) :
    Except String (List Seg) :=
  match searchResult with
  | none => .error "No path could be found to exit"
  | some (start, mids) =>
    match buildSegsFrom start mids [] with
    | .error e => .error e
    | .ok (acc, prev) => pathAppend acc ⟨prev, getGoal prev goal⟩

/-- A checked append of a segment starting exactly at the carried point
always succeeds. -/
theorem pathAppend_ok_exact (acc : List Seg) (prev pt : Vec2) (h : endsAt acc prev) :
    pathAppend acc ⟨prev, pt⟩ = .ok (acc ++ [⟨prev, pt⟩]) := by
  rcases h with rfl | ⟨last, hl, he⟩
  · rfl
  · unfold pathAppend
    rw [hl]
    show (if checkConnectivity last ⟨prev, pt⟩ = true then
        (Except.ok (acc ++ [⟨prev, pt⟩]) : Except String (List Seg))
      else .error "segments do not connect") = _
    rw [show checkConnectivity last ⟨prev, pt⟩ = true by
      show allclose last.end_ prev = true
      rw [he]
      exact allclose_refl prev]
    rw [if_pos rfl]

/-- The segment-building loop of `create_path` always succeeds and keeps
ending exactly at the carried point. -/
theorem buildSegsFrom_ok (pts : List Vec2) : ∀ (prev : Vec2) (acc : List Seg),
    endsAt acc prev →
    ∃ acc' prev', buildSegsFrom prev pts acc = .ok (acc', prev') ∧ endsAt acc' prev' := by
  induction pts with
  | nil =>
    intro prev acc h
    exact ⟨acc, prev, rfl, h⟩
  | cons pt rest ih =>
    intro prev acc h
    have happ := pathAppend_ok_exact acc prev pt h
    have hends : endsAt (acc ++ [⟨prev, pt⟩]) pt := by
      right
      exact ⟨⟨prev, pt⟩, List.getLast?_concat acc, rfl⟩
    obtain ⟨acc', prev', heq, hend⟩ := ih pt (acc ++ [⟨prev, pt⟩]) hends
    refine ⟨acc', prev', ?_, hend⟩
    show buildSegsFrom prev (pt :: rest) acc = _
    unfold buildSegsFrom
    rw [happ]
    exact heq

/-- C8: when the shortest-path search finds no route from the agent's
position to the exit (`nx.astar_path` raises `NetworkXNoPath`, i.e. the
search outcome is `none`), `create_path` raises a routing error instead of
returning; and whenever it returns normally it returns a (non-empty) path. -/
theorem createPath_routing (goal : Obstacle) (edges : List (GNode × GNode)) (startN : GNode)
    (res : Option (Vec2 × List Vec2))
    (hres : res = none ↔ ¬ Reachable edges startN GNode.exitNode) :
    (¬ Reachable edges startN GNode.exitNode →
      createPath goal res = .error "No path could be found to exit") ∧
    (∀ pr, createPath goal res = .ok pr → pr ≠ []) ∧
    (∀ start mids, res = some (start, mids) →
      ∃ pr, createPath goal res = .ok pr ∧ pr ≠ []) := by
  have hsome : ∀ start mids, createPath goal (some (start, mids)) ≠ .error "" →
      True := fun _ _ _ => trivial
  refine ⟨?_, ?_, ?_⟩
  · intro h
    rw [hres.mpr h]
    rfl
  · intro pr hok
    cases res with
    | none =>
      rw [show createPath goal none = .error "No path could be found to exit" from rfl] at hok
      exact absurd hok (by simp)
    | some sm =>
      obtain ⟨s, m⟩ := sm
      obtain ⟨acc', prev', heq, hend⟩ := buildSegsFrom_ok m s [] (Or.inl rfl)
      have hval : createPath goal (some (s, m)) =
          .ok (acc' ++ [⟨prev', getGoal prev' goal⟩]) := by
        show (match buildSegsFrom s m [] with
          | Except.error e => (Except.error e : Except String (List Seg))
          | Except.ok (acc, prev) => pathAppend acc ⟨prev, getGoal prev goal⟩) = _
        rw [heq]
        exact pathAppend_ok_exact acc' prev' (getGoal prev' goal) hend
      rw [hval] at hok
      injection hok with h'
      rw [← h']
      simp
  · intro s m hsm
    subst hsm
    obtain ⟨acc', prev', heq, hend⟩ := buildSegsFrom_ok m s [] (Or.inl rfl)
    have hval : createPath goal (some (s, m)) =
        .ok (acc' ++ [⟨prev', getGoal prev' goal⟩]) := by
      show (match buildSegsFrom s m [] with
        | Except.error e => (Except.error e : Except String (List Seg))
        | Except.ok (acc, prev) => pathAppend acc ⟨prev, getGoal prev goal⟩) = _
      rw [heq]
      exact pathAppend_ok_exact acc' prev' (getGoal prev' goal) hend
    exact ⟨acc' ++ [⟨prev', getGoal prev' goal⟩], hval, by simp⟩

/-- In a graph with no edges, reachability is just equality. -/
theorem reachable_empty_eq {a b : GNode} (h : Reachable [] a b) : a = b := by
  induction h with
  | refl => rfl
  | tail h1 h2 ih =>
    rcases h2 with h2 | h2 <;> exact absurd h2 (List.not_mem_nil _)

/-- A position node disconnected from the exit. -/
theorem noRouteEmpty : ¬ Reachable [] (GNode.pt (1, 1)) GNode.exitNode := by
  intro h
  exact GNode.noConfusion (reachable_empty_eq h)

/-- Witness for C8: with an empty visibility graph the agent's start has no
route, the search reports no path, and `create_path` raises the routing
error. -/
theorem createPath_routing_witness :
    ¬ Reachable [] (GNode.pt (1, 1)) GNode.exitNode ∧
    createPath unitSq none = .error "No path could be found to exit" :=
  ⟨noRouteEmpty,
   (createPath_routing unitSq [] (GNode.pt (1, 1)) none
     ⟨fun _ => noRouteEmpty, fun _ => rfl⟩).1 noRouteEmpty⟩

/-- A cell coordinate `(row, column)` as produced by
`np.floor(position / cell_size)` and the `int(...)` casts of
`Scene.update_cells`. -/
abbrev CellKey := ℤ × ℤ

/-- The `cell_dict` of a `Scene`, as an association list from cell
coordinates to the index sets of the cells' `pedestrian_set`. -/
abbrev CellMap := List (CellKey × List ℕ)

/-- `new_cell_orientation in self.cell_dict` from `Scene.update_cells`. -/
def hasKeyB (d : CellMap) (c : CellKey) : Bool :=
  d.any (fun e => decide (e.1 = c))

/-- The pedestrian set of the cell at `c` (empty when the key is absent). -/
def getCell (d : CellMap) (c : CellKey) : List ℕ :=
  ((d.find? (fun e => decide (e.1 = c))).map Prod.snd).getD []

/-- Replace the pedestrian set of the cell at `c`. -/
def setCell (d : CellMap) (c : CellKey) (v : List ℕ) : CellMap :=
  d.map (fun e => if e.1 = c then (e.1, v) else e)

/-- `Cell.remove_pedestrian` from `scene.py`: `assert pedestrian in
self.pedestrian_set`, then remove it (python `set` semantics). -/
def cellRemovePed (d : CellMap) (c : CellKey) (i : ℕ) : Except String CellMap :=
  if i ∈ getCell d c then
    .ok (setCell d c ((getCell d c).filter (fun x => decide (x ≠ i))))
  else .error "assertion failed: pedestrian not in cell"

/-- `Cell.add_pedestrian` from `scene.py`: `assert pedestrian not in
self.pedestrian_set`, then add it and point the pedestrian's cell
back-reference at this cell. -/
def cellAddPed (d : CellMap) (c : CellKey) (i : ℕ) : Except String CellMap :=
  if i ∈ getCell d c then .error "assertion failed: pedestrian already in cell"
  else .ok (setCell d c (i :: getCell d c))

/-- Agent `i` occupies the cell at `c`. -/
def memCell (d : CellMap) (c : CellKey) (i : ℕ) : Prop := i ∈ getCell d c

/-- Membership in a cell forces the coordinate to be a dictionary key. -/
theorem hasKeyB_of_memCell (d : CellMap) (c : CellKey) (i : ℕ) (h : memCell d c i) :
    hasKeyB d c = true := by
  unfold memCell getCell at h
  rcases hf : d.find? (fun e => decide (e.1 = c)) with _ | e
  · rw [hf] at h
    exact absurd h (List.not_mem_nil i)
  · have hmem := List.mem_of_find?_eq_some hf
    have hp := List.find?_some hf
    unfold hasKeyB
    rw [List.any_eq_true]
    exact ⟨e, hmem, hp⟩

/-- `setCell` at the looked-up key. -/
theorem getCell_setCell_self (d : CellMap) (c : CellKey) (v : List ℕ) :
    getCell (setCell d c v) c = if hasKeyB d c then v else [] := by
  induction d with
  | nil => simp [getCell, setCell, hasKeyB]
  | cons e tl ih =>
    by_cases he : e.1 = c
    · simp [getCell, setCell, hasKeyB, List.find?_cons_of_pos, he]
    · simp only [setCell, List.map_cons, if_neg he]
      simp only [getCell, hasKeyB] at ih ⊢
      rw [List.find?_cons_of_neg _ (by simp [he])]
      simp only [List.any_cons, decide_eq_false he, Bool.false_or]
      exact ih

/-- `setCell` at a different key. -/
theorem getCell_setCell_ne (d : CellMap) (c c' : CellKey) (v : List ℕ) (h : c' ≠ c) :
    getCell (setCell d c v) c' = getCell d c' := by
  induction d with
  | nil => simp [getCell, setCell]
  | cons e tl ih =>
    by_cases he : e.1 = c
    · simp only [setCell, List.map_cons, if_pos he]
      simp only [getCell] at ih ⊢
      rw [List.find?_cons_of_neg _ (by simp [he, Ne.symm h]),
        List.find?_cons_of_neg _ (by simp [he, Ne.symm h])]
      exact ih
    · simp only [setCell, List.map_cons, if_neg he]
      by_cases he' : e.1 = c'
      · simp [getCell, List.find?_cons_of_pos, he']
      · simp only [getCell] at ih ⊢
        rw [List.find?_cons_of_neg _ (by simp [he']), List.find?_cons_of_neg _ (by simp [he'])]
        exact ih

/-- `setCell` preserves the key set. -/
theorem hasKeyB_setCell (d : CellMap) (c c' : CellKey) (v : List ℕ) :
    hasKeyB (setCell d c v) c' = hasKeyB d c' := by
  induction d with
  | nil => simp [hasKeyB, setCell]
  | cons e tl ih =>
    by_cases he : e.1 = c <;>
      simp [hasKeyB, setCell, List.any_cons, he] at ih ⊢ <;> rw [ih]

/-- An absent key has an empty pedestrian set. -/
theorem getCell_nil_of_hasKeyB_false (d : CellMap) (c : CellKey) (h : hasKeyB d c = false) :
    getCell d c = [] := by
  rcases hf : d.find? (fun e => decide (e.1 = c)) with _ | e
  · simp [getCell, hf]
  · exfalso
    have hmem := List.mem_of_find?_eq_some hf
    have hp := List.find?_some hf
    have : hasKeyB d c = true := by
      unfold hasKeyB
      rw [List.any_eq_true]
      exact ⟨e, hmem, hp⟩
    rw [h] at this
    exact absurd this (by simp)

/-- `Cell.remove_pedestrian` succeeds on a member and removes exactly that
agent from that cell, leaving keys and every other membership untouched. -/
theorem cellRemovePed_spec (d : CellMap) (c : CellKey) (i : ℕ) (h : memCell d c i) :
    ∃ d1, cellRemovePed d c i = .ok d1 ∧
      (∀ c' k, memCell d1 c' k ↔ (memCell d c' k ∧ ¬(c' = c ∧ k = i))) ∧
      (∀ c', hasKeyB d1 c' = hasKeyB d c') := by
  refine ⟨setCell d c ((getCell d c).filter (fun x => decide (x ≠ i))), ?_, ?_, ?_⟩
  · unfold cellRemovePed
    exact if_pos h
  · intro c' k
    by_cases hc : c' = c
    · have hkey : hasKeyB d c = true := hasKeyB_of_memCell d c i h
      subst hc
      unfold memCell
      rw [getCell_setCell_self, if_pos hkey, List.mem_filter]
      simp only [decide_eq_true_eq, eq_self_iff_true, true_and]
    · unfold memCell
      rw [getCell_setCell_ne _ _ _ _ hc]
      constructor
      · intro hm
        exact ⟨hm, fun hx => hc hx.1⟩
      · rintro ⟨hm, -⟩
        exact hm
  · intro c'
    exact hasKeyB_setCell d c c' _

/-- `Cell.add_pedestrian` succeeds on a non-member of an existing cell and
adds exactly that agent to that cell, leaving keys and every other
membership untouched. -/
theorem cellAddPed_spec (d : CellMap) (c : CellKey) (i : ℕ)
    (habs : ¬ memCell d c i) (hk : hasKeyB d c = true) :
    ∃ d1, cellAddPed d c i = .ok d1 ∧
      (∀ c' k, memCell d1 c' k ↔ (memCell d c' k ∨ (c' = c ∧ k = i))) ∧
      (∀ c', hasKeyB d1 c' = hasKeyB d c') := by
  refine ⟨setCell d c (i :: getCell d c), ?_, ?_, ?_⟩
  · unfold cellAddPed
    exact if_neg habs
  · intro c' k
    by_cases hc : c' = c
    · subst hc
      unfold memCell
      rw [getCell_setCell_self, if_pos hk, List.mem_cons]
      simp only [eq_self_iff_true, true_and]
      constructor
      · rintro (rfl | hm)
        · exact Or.inr rfl
        · exact Or.inl hm
      · rintro (hm | rfl)
        · exact Or.inr hm
        · exact Or.inl rfl
    · unfold memCell
      rw [getCell_setCell_ne _ _ _ _ hc]
      constructor
      · intro hm
        exact Or.inl hm
      · rintro (hm | ⟨hx, -⟩)
        · exact hm
        · exact absurd hx hc
  · intro c'
    exact hasKeyB_setCell d c c' _

/-- `List.set` read back at the written index. -/
theorem getD_set_self (l : List CellKey) (j : ℕ) (v dflt : CellKey) (h : j < l.length) :
    (l.set j v).getD j dflt = v := by
  simp [List.getD_eq_getElem?_getD, List.getElem?_set, h]

/-- `List.set` read back at another index. -/
theorem getD_set_ne (l : List CellKey) (j k : ℕ) (v dflt : CellKey) (h : k ≠ j) :
    (l.set j v).getD k dflt = l.getD k dflt := by
  simp [List.getD_eq_getElem?_getD, List.getElem?_set, Ne.symm h]

/-- The mutable state that `Scene.update_cells` works on: the position
array, the recorded per-agent cell coordinates (`pedestrian_cells`), the
alive flags, the per-agent cell back-references (`pedestrian.cell`) and the
cell dictionary. -/
structure GridState where
  positionArray : List Vec2
  pedestrianCells : List CellKey
  aliveArray : List Bool
  agentCell : List CellKey
  cellDict : CellMap

/-- `Scene.get_pedestrian_cells`: `np.floor(self.position_array / self.cell_size)`. -/
def newPedCells (cs : Vec2) (pos : List Vec2) : List CellKey :=
  pos.map (fun p => (⌊p.1 / cs.1⌋, ⌊p.2 / cs.2⌋))

/-- The per-index loop of `Scene.update_cells`: for each alive agent whose
recomputed cell coordinate differs from the recorded one, move it from its
back-referenced cell to the new cell when the new coordinate is a key of
`cell_dict`, and silently skip it otherwise (`else: pass`). -/
def updateCellsGo (newCells oldCells : List CellKey) (alive : List Bool) :
    List ℕ → CellMap → List CellKey → Except String (CellMap × List CellKey)
  | [], d, br => .ok (d, br)
  | i :: rest, d, br =>
    if alive.getD i false then
      if oldCells.getD i (0, 0) ≠ newCells.getD i (0, 0) then
        if hasKeyB d (newCells.getD i (0, 0)) then
          match cellRemovePed d (br.getD i (0, 0)) i with
          | .error e => .error e
          | .ok d1 =>
            match cellAddPed d1 (newCells.getD i (0, 0)) i with
            | .error e => .error e
            | .ok d2 =>
              updateCellsGo newCells oldCells alive rest d2 (br.set i (newCells.getD i (0, 0)))
        else updateCellsGo newCells oldCells alive rest d br
      else updateCellsGo newCells oldCells alive rest d br
    else updateCellsGo newCells oldCells alive rest d br

/-- `Scene.update_cells` from `scene.py`: recompute every agent's floored
cell coordinate, run the per-index loop over all agents, and finally
overwrite the whole `pedestrian_cells` array with the recomputed
coordinates (`self.pedestrian_cells = new_ped_cells`), in-grid or not. -/
def updateCells (cs : Vec2) (s : GridState) : Except String GridState :=
  match updateCellsGo (newPedCells cs s.positionArray) s.pedestrianCells s.aliveArray
      (List.range s.positionArray.length) s.cellDict s.agentCell with
  | .error e => .error e
  | .ok (d, br) =>
    .ok { s with
          cellDict := d
          agentCell := br
          pedestrianCells := newPedCells cs s.positionArray }

/-- The grid well-formedness that `Scene` maintains: every alive agent's
back-referenced cell is a dictionary key, the agent is a member of exactly
that cell's set, and of no other. -/
def GridInv (alive : List Bool) (d : CellMap) (br : List CellKey) : Prop :=
  ∀ j, alive.getD j false = true →
    hasKeyB d (br.getD j (0, 0)) = true ∧
    memCell d (br.getD j (0, 0)) j ∧
    ∀ c, c ≠ br.getD j (0, 0) → ¬ memCell d c j

/-- The update loop run with an agent `i` whose recomputed cell coordinate
is not a dictionary key: it returns normally, maintains the grid
invariant, and touches neither `i`'s cell memberships, nor `i`'s
back-reference, nor the key set, nor the back-reference array's length. -/
theorem updateCellsGo_spec (newCells oldCells : List CellKey) (alive : List Bool) (i : ℕ)
    (idxs : List ℕ) :
    ∀ (d : CellMap) (br : List CellKey),
      GridInv alive d br →
      (∀ j ∈ idxs, j < br.length) →
      hasKeyB d (newCells.getD i (0, 0)) = false →
      ∃ d' br', updateCellsGo newCells oldCells alive idxs d br = .ok (d', br') ∧
        GridInv alive d' br' ∧
        (∀ c, memCell d' c i ↔ memCell d c i) ∧
        br'.getD i (0, 0) = br.getD i (0, 0) ∧
        br'.length = br.length ∧
        (∀ c, hasKeyB d' c = hasKeyB d c) := by
  induction idxs with
  | nil =>
    intro d br hinv _ _
    exact ⟨d, br, rfl, hinv, fun c => Iff.rfl, rfl, rfl, fun c => rfl⟩
  | cons j rest ih =>
    intro d br hinv hlen hkeys
    have hstep : updateCellsGo newCells oldCells alive (j :: rest) d br =
        (if alive.getD j false then
          if oldCells.getD j (0, 0) ≠ newCells.getD j (0, 0) then
            if hasKeyB d (newCells.getD j (0, 0)) then
              match cellRemovePed d (br.getD j (0, 0)) j with
              | .error e => .error e
              | .ok d1 =>
                match cellAddPed d1 (newCells.getD j (0, 0)) j with
                | .error e => .error e
                | .ok d2 =>
                  updateCellsGo newCells oldCells alive rest d2
                    (br.set j (newCells.getD j (0, 0)))
            else updateCellsGo newCells oldCells alive rest d br
          else updateCellsGo newCells oldCells alive rest d br
        else updateCellsGo newCells oldCells alive rest d br) := rfl
    rw [hstep]
    have hrest : ∀ j' ∈ rest, j' < br.length := fun j' hj' => hlen j' (List.mem_cons_of_mem _ hj')
    by_cases ha : alive.getD j false = true
    case neg =>
      rw [if_neg ha]
      exact ih d br hinv hrest hkeys
    case pos =>
      rw [if_pos ha]
      by_cases hne : oldCells.getD j (0, 0) = newCells.getD j (0, 0)
      case pos =>
        rw [if_neg (not_not_intro hne)]
        exact ih d br hinv hrest hkeys
      case neg =>
        rw [if_pos hne]
        by_cases hk : hasKeyB d (newCells.getD j (0, 0)) = true
        case neg =>
          rw [if_neg hk]
          exact ih d br hinv hrest hkeys
        case pos =>
          rw [if_pos hk]
          by_cases hji : j = i
          · subst hji
            rw [hkeys] at hk
            exact absurd hk (by simp)
          · obtain ⟨hkeyj, hmemj, honlyj⟩ := hinv j ha
            obtain ⟨d1, hrem, hmem1, hkey1⟩ := cellRemovePed_spec d (br.getD j (0, 0)) j hmemj
            have habs : ¬ memCell d1 (newCells.getD j (0, 0)) j := by
              intro hx
              rw [hmem1] at hx
              obtain ⟨hin, hnot⟩ := hx
              by_cases hbc : newCells.getD j (0, 0) = br.getD j (0, 0)
              · exact hnot ⟨hbc, rfl⟩
              · exact honlyj _ hbc hin
            obtain ⟨d2, hadd, hmem2, hkey2⟩ := cellAddPed_spec d1 (newCells.getD j (0, 0)) j
              habs (by rw [hkey1]; exact hk)
            simp only [hrem, hadd]
            have hm12 : ∀ c k', memCell d2 c k' ↔
                ((memCell d c k' ∧ ¬(c = br.getD j (0, 0) ∧ k' = j)) ∨
                 (c = newCells.getD j (0, 0) ∧ k' = j)) := by
              intro c k'
              rw [hmem2, hmem1]
            have hjlen : j < br.length := hlen j (List.mem_cons_self _ _)
            have hinv2 : GridInv alive d2 (br.set j (newCells.getD j (0, 0))) := by
              intro k hka
              by_cases hkj : k = j
              · subst hkj
                rw [getD_set_self br k _ _ hjlen]
                refine ⟨by rw [hkey2, hkey1]; exact hk, ?_, ?_⟩
                · rw [hm12]
                  exact Or.inr ⟨rfl, rfl⟩
                · intro c hc hmc
                  rw [hm12] at hmc
                  rcases hmc with ⟨hin, hnot⟩ | ⟨hceq, -⟩
                  · by_cases hcb : c = br.getD k (0, 0)
                    · exact hnot ⟨hcb, rfl⟩
                    · exact honlyj c hcb hin
                  · exact hc hceq
              · rw [getD_set_ne br j k _ _ hkj]
                obtain ⟨hkeyk, hmemk, honlyk⟩ := hinv k hka
                refine ⟨by rw [hkey2, hkey1]; exact hkeyk, ?_, ?_⟩
                · rw [hm12]
                  exact Or.inl ⟨hmemk, fun hx => hkj hx.2⟩
                · intro c hc hmc
                  rw [hm12] at hmc
                  rcases hmc with ⟨hin, -⟩ | ⟨-, hkj'⟩
                  · exact honlyk c hc hin
                  · exact hkj hkj'
            have hlen2 : ∀ j' ∈ rest, j' < (br.set j (newCells.getD j (0, 0))).length := by
              intro j' hj'
              rw [List.length_set]
              exact hrest j' hj'
            have hkeys2 : hasKeyB d2 (newCells.getD i (0, 0)) = false := by
              rw [hkey2, hkey1]
              exact hkeys
            obtain ⟨d', br', heq, hinv', hmi, hbri, hlen', hkeys'⟩ :=
              ih d2 (br.set j (newCells.getD j (0, 0))) hinv2 hlen2 hkeys2
            refine ⟨d', br', heq, hinv', ?_, ?_, ?_, ?_⟩
            · intro c
              rw [hmi c, hm12]
              constructor
              · rintro (⟨hin, -⟩ | ⟨-, hij⟩)
                · exact hin
                · exact absurd hij.symm hji
              · intro hin
                exact Or.inl ⟨hin, fun hx => hji hx.2.symm⟩
            · rw [hbri, getD_set_ne br j i _ _ (fun hx => hji hx.symm)]
            · rw [hlen', List.length_set]
            · intro c
              rw [hkeys' c, hkey2, hkey1]

/-- C10: for a well-formed grid, when an alive agent's recomputed
floor-divided cell coordinate is not a key of `cell_dict`, `update_cells`
does not raise and does not modify any cell's membership for that agent —
the agent remains in its previous (back-referenced) cell's set — while the
recorded `pedestrian_cells` entry is nevertheless overwritten with the
out-of-grid coordinate. -/
theorem updateCells_out_of_grid (cs : Vec2) (s : GridState) (i : ℕ)
    (hlen1 : s.agentCell.length = s.positionArray.length)
    (hinv : GridInv s.aliveArray s.cellDict s.agentCell)
    (halive : s.aliveArray.getD i false = true)
    (hout : hasKeyB s.cellDict ((newPedCells cs s.positionArray).getD i (0, 0)) = false) :
    ∃ s', updateCells cs s = .ok s' ∧
      (∀ c, memCell s'.cellDict c i ↔ memCell s.cellDict c i) ∧
      memCell s'.cellDict (s.agentCell.getD i (0, 0)) i ∧
      s'.agentCell.getD i (0, 0) = s.agentCell.getD i (0, 0) ∧
      s'.pedestrianCells.getD i (0, 0) = (newPedCells cs s.positionArray).getD i (0, 0) := by
  obtain ⟨d', br', heq, hinv', hmi, hbri, hlen', hkeys'⟩ :=
    updateCellsGo_spec (newPedCells cs s.positionArray) s.pedestrianCells s.aliveArray i
      (List.range s.positionArray.length) s.cellDict s.agentCell hinv
      (fun j hj => by rw [hlen1]; exact List.mem_range.mp hj) hout
  refine ⟨{ s with
            cellDict := d'
            agentCell := br'
            pedestrianCells := newPedCells cs s.positionArray }, ?_, ?_, ?_, ?_, ?_⟩
  · show (match updateCellsGo (newPedCells cs s.positionArray) s.pedestrianCells s.aliveArray
        (List.range s.positionArray.length) s.cellDict s.agentCell with
      | .error e => (.error e : Except String GridState)
      | .ok (dd, brr) =>
        .ok { s with
              cellDict := dd
              agentCell := brr
              pedestrianCells := newPedCells cs s.positionArray }) = _
    rw [heq]
  · exact hmi
  · exact (hmi _).mpr (hinv i halive).2.1
  · exact hbri
  · rfl

/-- A one-agent grid whose agent has wandered out of the 1×1-cell grid:
its position floors to cell `(5,0)`, which is not a dictionary key. -/
def gridEx : GridState :=
  { positionArray := [(11 / 2, 1 / 2)]
    pedestrianCells := [(0, 0)]
    aliveArray := [true]
    agentCell := [(0, 0)]
    cellDict := [((0, 0), [0])] }

/-- Witness for C10: on the one-agent out-of-grid state, `update_cells`
returns normally, keeps agent 0 exactly in cell `(0,0)`'s set, and
overwrites its `pedestrian_cells` entry with the out-of-grid `(5,0)`. -/
theorem updateCells_out_of_grid_witness :
    gridEx.aliveArray.getD 0 false = true ∧
    hasKeyB gridEx.cellDict ((newPedCells (1, 1) gridEx.positionArray).getD 0 (0, 0)) = false ∧
    ∃ s', updateCells (1, 1) gridEx = .ok s' ∧
      (∀ c, memCell s'.cellDict c 0 ↔ memCell gridEx.cellDict c 0) ∧
      memCell s'.cellDict (gridEx.agentCell.getD 0 (0, 0)) 0 ∧
      s'.agentCell.getD 0 (0, 0) = gridEx.agentCell.getD 0 (0, 0) ∧
      s'.pedestrianCells.getD 0 (0, 0) = (newPedCells (1, 1) gridEx.positionArray).getD 0 (0, 0) := by
  have hNP : newPedCells (1, 1) gridEx.positionArray = [(5, 0)] := by
    show [((⌊(11 / 2 : ℚ) / 1⌋ : ℤ), (⌊(1 / 2 : ℚ) / 1⌋ : ℤ))] = [((5 : ℤ), (0 : ℤ))]
    norm_num
  have hout : hasKeyB gridEx.cellDict
      ((newPedCells (1, 1) gridEx.positionArray).getD 0 (0, 0)) = false := by
    rw [hNP]
    decide
  have hinvEx : GridInv gridEx.aliveArray gridEx.cellDict gridEx.agentCell := by
    intro j hj
    match j with
    | 0 =>
      refine ⟨by decide, by unfold memCell; decide, ?_⟩
      intro c hc hmc
      unfold memCell getCell at hmc
      have hd : gridEx.cellDict = [(((0, 0) : CellKey), [0])] := rfl
      rw [hd] at hmc
      rcases hf : List.find? (fun e => decide (e.1 = c)) [(((0, 0) : CellKey), ([0] : List ℕ))]
        with _ | e
      · rw [hf] at hmc
        simp at hmc
      · have hp := List.find?_some hf
        have hm := List.mem_of_find?_eq_some hf
        simp only [List.mem_singleton] at hm
        subst hm
        simp only [decide_eq_true_eq] at hp
        exact hc hp.symm
    | n + 1 =>
      exfalso
      have : gridEx.aliveArray.getD (n + 1) false = false := by
        show ([true] : List Bool).getD (n + 1) false = false
        simp [List.getD]
      rw [this] at hj
      exact absurd hj (by simp)
  obtain ⟨s', h1, h2, h3, h4, h5⟩ := updateCells_out_of_grid (1, 1) gridEx 0 rfl hinvEx rfl hout
  exact ⟨rfl, hout, s', h1, h2, h3, h4, h5⟩

end Mercurial
